import Mathlib

/-!
Shallow embedding of `python/firedrake/ufl_expr.py`: the Argument/Action
symbolic layer of the firedrake UFL binding, together with value-level models
of the external collaborators (the UFL algebra engine's base argument class,
`core_types.Function`, `solving.assemble`) that the file delegates to.  The
collaborators are not part of the source fragment; where their behaviour
decides a property they are modelled from the specification's collaborator
contracts and marked as such in their doc comments.
-/

namespace Firedrake

/-- A finite element as far as this layer observes it: a family/degree tag and
the value shape returned by `value_shape()`.  Structural equality models UFL
element equality. -/
structure FiniteElement where
  family : Nat
  degree : Nat
  value_shape : List Nat
deriving DecidableEq, Repr

/-- A function space (external collaborator).  It carries the element returned
by `ufl_element()`; the `id` field lets two distinct spaces share one element,
which happens in the runtime (same element on different meshes).  Structural
equality models `FunctionSpace.__eq__`. -/
structure FunctionSpace where
  id : Nat
  ufl_element : FiniteElement
deriving DecidableEq, Repr

/-- `firedrake.Argument`: element, the function-space binding stored in
`_function_space`, and the integer count (`-2` test, `-1` trial). -/
structure Argument where
  element : FiniteElement
  function_space : FunctionSpace
  count : Int
deriving DecidableEq, Repr

/-- Modelled from the spec: equality of `Argument`s is inherited unchanged from
the external algebra engine's base argument class, whose symbolic identity is
the pair (element, count); the function-space binding is "layered on top of,
not baked into, the base symbolic identity" (spec section 4.1).  The source
class defines no equality of its own. -/
def Argument.ufl_eq (a b : Argument) : Bool :=
  decide (a.element = b.element) && decide (a.count = b.count)

/-- Modelled from the spec: constructing an `Argument` with `count=None` lets
the base class assign a fresh count from a global counter; `counter` is that
counter's state and the fresh count is returned with the advanced counter. -/
def Argument.mk_fresh (element : FiniteElement) (function_space : FunctionSpace)
    (counter : Nat) : Argument × Nat :=
  (⟨element, function_space, (counter : Int)⟩, counter + 1)

/-- A dynamically typed value, standing for what Python may pass for the
duck-typed `element` and `count` parameters of `reconstruct` (`None`, an int,
a finite element, or some unrelated object). -/
inductive UflVal where
  | none : UflVal
  | int : Int → UflVal
  | elem : FiniteElement → UflVal
  | other : Nat → UflVal
deriving DecidableEq, Repr

/-- Result of `Argument.reconstruct`: either the very same object (`same`,
reference identity preserved) or a freshly constructed `Argument`. -/
inductive ReconOut where
  | same : ReconOut
  | fresh : Argument → ReconOut
deriving DecidableEq, Repr

/-- `Argument.reconstruct(element=None, function_space=None, count=None)`.
Each supplied value equal to the current one is normalised to the current
object, after which the `is`-identity shortcut tests only `count` and
`element`; the three `ufl_assert` calls become `Except.error`. -/
def Argument.reconstruct (self : Argument) (element : UflVal)
    (function_space : Option FunctionSpace) (count : UflVal) :
    Except String ReconOut :=
  let fs : FunctionSpace :=
    match function_space with
    | Option.none => self.function_space
    | Option.some w => if w = self.function_space then self.function_space else w
  let el : UflVal :=
    if element = UflVal.none ∨ element = UflVal.elem self.element then
      UflVal.elem self.element
    else element
  let ct : UflVal :=
    if count = UflVal.none ∨ count = UflVal.int self.count then
      UflVal.int self.count
    else count
  if ct = UflVal.int self.count ∧ el = UflVal.elem self.element then
    Except.ok ReconOut.same
  else
    match el with
    | UflVal.elem e =>
      match ct with
      | UflVal.int c =>
        if e.value_shape = self.element.value_shape then
          Except.ok (ReconOut.fresh ⟨e, fs, c⟩)
        else
          Except.error "Cannot reconstruct an Argument with a different value shape."
      | _ => Except.error "Expecting an int"
    | _ => Except.error "Expecting an element"

/-- `TestFunction(function_space)`. -/
def TestFunction (function_space : FunctionSpace) : Argument :=
  ⟨function_space.ufl_element, function_space, -2⟩

/-- `TrialFunction(function_space)`. -/
def TrialFunction (function_space : FunctionSpace) : Argument :=
  ⟨function_space.ufl_element, function_space, -1⟩

/-! ### The adjoint and derivative layer

`ufl.adjoint`, `ufl.derivative` and `extract_arguments` are the external
algebra engine; the observable behaviour of the source functions is which
arguments they hand the engine, so the engine calls are reified as records. -/

/-- Modelled from the spec: a bilinear UFL form as `extract_arguments` sees
it — it has exactly two arguments, the test argument (count-ordered first)
and the trial argument. -/
structure UflBilinearForm where
  test : Argument
  trial : Argument
deriving DecidableEq, Repr

/-- Modelled from the spec: the engine's `extract_arguments` on a bilinear
form returns its two arguments in count order, test first (`v, u = ...`). -/
def extract_arguments (form : UflBilinearForm) : Argument × Argument :=
  (form.test, form.trial)

/-- The call `ufl.adjoint(form, reordered_arguments)` that `adjoint` makes:
the engine is external, so the observable result is the pair of arguments
handed to it. -/
structure AdjointCall where
  form : UflBilinearForm
  reordered : Argument × Argument
deriving DecidableEq, Repr

/-- `adjoint(form, reordered_arguments=None)`: when the caller supplies
`reordered_arguments` it is forwarded unchanged; otherwise the form's two
arguments are extracted and two new `Argument`s are built with element and
function space from the originals in swapped order and default (fresh)
counts drawn from the global counter `counter`. -/
def adjoint (form : UflBilinearForm)
    (reordered_arguments : Option (Argument × Argument)) (counter : Nat) :
    AdjointCall × Nat :=
  match reordered_arguments with
  | Option.some ra => (⟨form, ra⟩, counter)
  | Option.none =>
    let vu := extract_arguments form
    let a1 := Argument.mk_fresh vu.2.element vu.2.function_space counter
    let a2 := Argument.mk_fresh vu.1.element vu.1.function_space a1.2
    (⟨form, (a1.1, a2.1)⟩, a2.2)

/-- What `derivative` may receive for `u`: a `core_types.Function` (which
exposes a `function_space()`), or some unrelated object. -/
inductive Coeff where
  | function : FunctionSpace → Coeff
  | other : Nat → Coeff
deriving DecidableEq, Repr

/-- The call `ufl.derivative(form, u, du)` that `derivative` makes; the
engine is external, so the observable result is what is handed to it. -/
structure DerivCall (α : Type) where
  form : α
  u : Coeff
  du : Argument
deriving DecidableEq, Repr

/-- `derivative(form, u, du=None)`: if `du` is missing and `u` is a
`core_types.Function`, `du` is auto-constructed as
`Argument(V.ufl_element(), V)` on `u`'s space `V` with a default (fresh)
count; if `du` is missing and `u` is anything else, a `RuntimeError` is
raised; a supplied `du` is used unchanged. -/
def derivative {α : Type} (form : α) (u : Coeff) (du : Option Argument)
    (counter : Nat) : Except String (DerivCall α × Nat) :=
  match du with
  | Option.some d => Except.ok (⟨form, u, d⟩, counter)
  | Option.none =>
    match u with
    | Coeff.function V =>
      let a := Argument.mk_fresh V.ufl_element V counter
      Except.ok (⟨form, u, a.1⟩, a.2)
    | Coeff.other _ => Except.error "Cant compute derivative for form"

/-! ### The Action layer

Degrees of freedom are a vector `Fin n → Int`; discrete functions live in a
store of such vectors and are named by references, so that copying,
in-place `assign` and fresh allocation are observable, as the source's
mutation of `tensor` requires. -/

/-- The value of a discrete function: one integer per degree of freedom. -/
abbrev Dof (n : Nat) := Fin n → Int

/-- A reference to an allocated discrete function. -/
abbrev FuncRef := Nat

/-- The heap of allocated discrete functions; a reference is an index. -/
structure Store (n : Nat) where
  funcs : List (Dof n)

/-- Read the function a reference names (zero function if unallocated). -/
def Store.get (s : Store n) (r : FuncRef) : Dof n :=
  (s.funcs[r]?).getD (fun _ => 0)

/-- Overwrite the function a reference names, in place. -/
def Store.set (s : Store n) (r : FuncRef) (v : Dof n) : Store n :=
  ⟨s.funcs.set r v⟩

/-- Allocate a fresh function holding `v`; returns the new store and the
fresh reference. -/
def Store.alloc (s : Store n) (v : Dof n) : Store n × FuncRef :=
  (⟨s.funcs ++ [v]⟩, s.funcs.length)

/-- Modelled from the spec: a `DirichletBC` is opaque except for its
`node_set`, the constrained degree-of-freedom indices. -/
structure DirichletBC (n : Nat) where
  node_set : Finset (Fin n)

/-- Modelled from the spec: a bilinear form `a` as this layer observes it
through the assembly collaborator — assembling `ufl.action(a, v)` yields the
vector `apply v`. -/
structure BilinearForm (n : Nat) where
  apply : Dof n → Dof n

/-- The native symbolic object `ufl.action(form, coefficient)` of the
algebra engine: a plain form, not an `Action` wrapper. -/
structure UflAction (n : Nat) where
  form : BilinearForm n
  coefficient : FuncRef

/-- `ufl.action(form, coefficient)`. -/
def ufl_action (form : BilinearForm n) (coefficient : FuncRef) : UflAction n :=
  ⟨form, coefficient⟩

/-- Modelled from the spec: the assembly collaborator
`solving.assemble(symbolic_action, tensor=optional_buffer)` — it evaluates
the action on the coefficient's current values, writes into `tensor` when one
is supplied and otherwise allocates the result afresh. -/
def solving_assemble (s : Store n) (f : UflAction n) (tensor : Option FuncRef) :
    Store n × FuncRef :=
  let v := f.form.apply (s.get f.coefficient)
  match tensor with
  | Option.none => s.alloc v
  | Option.some t => (s.set t v, t)

/-- `firedrake.Action`: the bilinear form `_a`, the coefficient `_x`, and the
optional ordered boundary conditions `_bcs`. -/
structure Action (n : Nat) where
  a : BilinearForm n
  x : FuncRef
  bcs : Option (List (DirichletBC n))

/-- The first loop of `Action.assemble`:
`for bc in self._bcs: out.assign(0, subset=bc.node_set)`. -/
def zeroPass (out : FuncRef) (bcs : List (DirichletBC n)) (s : Store n) :
    Store n :=
  match bcs with
  | [] => s
  | bc :: rest =>
    zeroPass out rest
      (s.set out (fun i => if i ∈ bc.node_set then 0 else s.get out i))

/-- The second loop of `Action.assemble`:
`for bc in self._bcs: out.assign(self._x, subset=bc.node_set)`; note that it
reads `self._x`'s current values at each step. -/
def restorePass (out xRef : FuncRef) (bcs : List (DirichletBC n))
    (s : Store n) : Store n :=
  match bcs with
  | [] => s
  | bc :: rest =>
    restorePass out xRef rest
      (s.set out (fun i => if i ∈ bc.node_set then s.get xRef i else s.get out i))

/-- The boundary-condition branch of `Action.assemble` after `out` has been
initialised: zero `out` on each condition's node set in order
(`out.assign(0, subset=bc.node_set)`), assign `out` the assembled action of
`a` on `out` (`out.assign(solving.assemble(ufl.action(self._a, out)))`), then
restore `x`'s current values on each condition's node set in order
(`out.assign(self._x, subset=bc.node_set)`). -/
def assembleBcsPipe (a : BilinearForm n) (xr out : FuncRef)
    (bcs : List (DirichletBC n)) (s1 : Store n) : Store n :=
  let s2 := zeroPass out bcs s1
  let s3t := solving_assemble s2 (ufl_action a out) Option.none
  let s4 := s3t.1.set out (s3t.1.get s3t.2)
  restorePass out xr bcs s4

/-- `Action.assemble(tensor=None)`.  Without stored boundary conditions it
delegates to `solving.assemble(ufl.action(self._a, self._x), tensor=tensor)`.
With them: `out` is a fresh copy of `x` (`core_types.Function(self._x)`) or
the supplied tensor assigned `x`'s values; then the zero/assemble/restore
pipeline (`assembleBcsPipe`) runs on `out` and `out` is returned. -/
def Action.assemble (act : Action n) (s : Store n) (tensor : Option FuncRef) :
    Store n × FuncRef :=
  match act.bcs with
  | Option.none => solving_assemble s (ufl_action act.a act.x) tensor
  | Option.some bcs =>
    let so : Store n × FuncRef :=
      match tensor with
      | Option.none => s.alloc (s.get act.x)
      | Option.some t => (s.set t (s.get act.x), t)
    (assembleBcsPipe act.a act.x so.2 bcs so.1, so.2)

/-- The result of the free function `action`: either the engine's native
`ufl.Form` or an `Action` wrapper. -/
inductive ActionResult (n : Nat) where
  | uflForm : UflAction n → ActionResult n
  | wrapped : Action n → ActionResult n

/-- `action(form, coefficient, bcs=None)`: the native `ufl.action` when `bcs`
is absent, the sole construction site of `Action` otherwise. -/
def action (form : BilinearForm n) (coefficient : FuncRef)
    (bcs : Option (List (DirichletBC n))) : ActionResult n :=
  match bcs with
  | Option.none => ActionResult.uflForm (ufl_action form coefficient)
  | Option.some b => ActionResult.wrapped ⟨form, coefficient, Option.some b⟩

/-- The spec's description of the bcs-absent semantics, written from its
words alone: "`action(a, x, bcs=None)` is observationally equal to the
algebra engine's native action", i.e. assembling it just evaluates the native
action of `a` on `x`, into `tensor` when supplied, else into a fresh
function. -/
def specNativeActionAssemble (s : Store n) (a : BilinearForm n) (x : FuncRef)
    (tensor : Option FuncRef) : Store n × FuncRef :=
  let value := a.apply (s.get x)
  match tensor with
  | Option.none => s.alloc value
  | Option.some t => (s.set t value, t)

/-- Does some boundary condition in the list constrain node `i`? -/
def inNodes (bcs : List (DirichletBC n)) (i : Fin n) : Bool :=
  bcs.any (fun bc => decide (i ∈ bc.node_set))

/-! ### Store lemmas -/

theorem Store.length_set (s : Store n) (r : FuncRef) (v : Dof n) :
    (s.set r v).funcs.length = s.funcs.length := by
  simp [Store.set]

theorem Store.get_set_self (s : Store n) (r : FuncRef) (v : Dof n)
    (h : r < s.funcs.length) : (s.set r v).get r = v := by
  simp [Store.set, Store.get, List.getElem?_set_eq_of_lt, h]

theorem Store.get_set_ne (s : Store n) {r r' : FuncRef} (v : Dof n)
    (h : r' ≠ r) : (s.set r v).get r' = s.get r' := by
  simp [Store.set, Store.get, List.getElem?_set_ne (Ne.symm h)]

theorem Store.alloc_ref (s : Store n) (v : Dof n) :
    (s.alloc v).2 = s.funcs.length := rfl

theorem Store.length_alloc (s : Store n) (v : Dof n) :
    (s.alloc v).1.funcs.length = s.funcs.length + 1 := by
  simp [Store.alloc]

theorem Store.get_alloc_lt (s : Store n) (v : Dof n) {r : FuncRef}
    (h : r < s.funcs.length) : (s.alloc v).1.get r = s.get r := by
  simp [Store.alloc, Store.get, List.getElem?_append_left h]

theorem Store.get_alloc_new (s : Store n) (v : Dof n) :
    (s.alloc v).1.get s.funcs.length = v := by
  simp [Store.alloc, Store.get]

/-! ### Pass lemmas -/

theorem zeroPass_length (out : FuncRef) (bcs : List (DirichletBC n)) :
    ∀ s : Store n, (zeroPass out bcs s).funcs.length = s.funcs.length := by
  induction bcs with
  | nil => intro s; rfl
  | cons bc rest ih =>
    intro s
    simp [zeroPass, ih, Store.length_set]

theorem zeroPass_get_ne (out : FuncRef) (bcs : List (DirichletBC n))
    {r : FuncRef} (h : r ≠ out) :
    ∀ s : Store n, (zeroPass out bcs s).get r = s.get r := by
  induction bcs with
  | nil => intro s; rfl
  | cons bc rest ih =>
    intro s
    simp [zeroPass, ih, Store.get_set_ne _ _ h]

theorem zeroPass_get_out (out : FuncRef) (bcs : List (DirichletBC n)) :
    ∀ s : Store n, out < s.funcs.length → ∀ i,
      (zeroPass out bcs s).get out i =
        if inNodes bcs i then 0 else s.get out i := by
  induction bcs with
  | nil => intro s _ i; simp [zeroPass, inNodes]
  | cons bc rest ih =>
    intro s hout i
    have hlen : out < (s.set out
        (fun j => if j ∈ bc.node_set then 0 else s.get out j)).funcs.length := by
      simpa [Store.length_set] using hout
    have := ih _ hlen i
    simp only [zeroPass] at *
    rw [this, Store.get_set_self _ _ _ hout]
    by_cases hb : i ∈ bc.node_set <;> by_cases hr : inNodes rest i = true <;>
      simp [inNodes, hb, hr] at *

theorem restorePass_length (out xRef : FuncRef)
    (bcs : List (DirichletBC n)) :
    ∀ s : Store n, (restorePass out xRef bcs s).funcs.length = s.funcs.length := by
  induction bcs with
  | nil => intro s; rfl
  | cons bc rest ih =>
    intro s
    simp [restorePass, ih, Store.length_set]

theorem restorePass_get_ne (out xRef : FuncRef)
    (bcs : List (DirichletBC n)) {r : FuncRef} (h : r ≠ out) :
    ∀ s : Store n, (restorePass out xRef bcs s).get r = s.get r := by
  induction bcs with
  | nil => intro s; rfl
  | cons bc rest ih =>
    intro s
    simp [restorePass, ih, Store.get_set_ne _ _ h]

theorem restorePass_get_out (out xRef : FuncRef)
    (bcs : List (DirichletBC n)) (hx : xRef ≠ out) :
    ∀ s : Store n, out < s.funcs.length → ∀ i,
      (restorePass out xRef bcs s).get out i =
        if inNodes bcs i then s.get xRef i else s.get out i := by
  induction bcs with
  | nil => intro s _ i; simp [restorePass, inNodes]
  | cons bc rest ih =>
    intro s hout i
    have hlen : out < (s.set out
        (fun j => if j ∈ bc.node_set then s.get xRef j else s.get out j)).funcs.length := by
      simpa [Store.length_set] using hout
    have := ih _ hlen i
    simp only [restorePass] at *
    rw [this, Store.get_set_self _ _ _ hout, Store.get_set_ne _ _ hx]
    by_cases hb : i ∈ bc.node_set <;> by_cases hr : inNodes rest i = true <;>
      simp [inNodes, hb, hr] at *

/-! ### The assemble pipeline -/

theorem assembleBcsPipe_spec (a : BilinearForm n) (xr out : FuncRef)
    (bcs : List (DirichletBC n)) (s1 : Store n)
    (hout : out < s1.funcs.length) (hxlt : xr < s1.funcs.length)
    (hne : xr ≠ out) :
    (∀ i, (assembleBcsPipe a xr out bcs s1).get out i =
        if inNodes bcs i then s1.get xr i
        else a.apply (fun j => if inNodes bcs j then 0 else s1.get out j) i)
    ∧ (assembleBcsPipe a xr out bcs s1).get xr = s1.get xr := by
  have hl2 : (zeroPass out bcs s1).funcs.length = s1.funcs.length :=
    zeroPass_length out bcs s1
  have hout2 : out < (zeroPass out bcs s1).funcs.length := hl2 ▸ hout
  have hxlt2 : xr < (zeroPass out bcs s1).funcs.length := hl2 ▸ hxlt
  have hzfun : (zeroPass out bcs s1).get out =
      fun j => if inNodes bcs j then 0 else s1.get out j :=
    funext (zeroPass_get_out out bcs s1 hout)
  have hzx : (zeroPass out bcs s1).get xr = s1.get xr :=
    zeroPass_get_ne out bcs hne s1
  simp only [assembleBcsPipe, solving_assemble, ufl_action]
  set s2 := zeroPass out bcs s1 with hs2def
  set w : Dof n := a.apply (s2.get out) with hwdef
  have htmpget : (s2.alloc w).1.get (s2.alloc w).2 = w := by
    rw [Store.alloc_ref]; exact Store.get_alloc_new s2 w
  have hout3 : out < (s2.alloc w).1.funcs.length := by
    rw [Store.length_alloc]; exact Nat.lt_succ_of_lt hout2
  have hset_out : ((s2.alloc w).1.set out ((s2.alloc w).1.get (s2.alloc w).2)).get out = w := by
    rw [htmpget]; exact Store.get_set_self _ _ _ hout3
  have hset_xr : ((s2.alloc w).1.set out ((s2.alloc w).1.get (s2.alloc w).2)).get xr = s1.get xr := by
    rw [Store.get_set_ne _ _ hne, Store.get_alloc_lt _ _ hxlt2, hzx]
  have hout4 : out <
      ((s2.alloc w).1.set out ((s2.alloc w).1.get (s2.alloc w).2)).funcs.length := by
    rw [Store.length_set]; exact hout3
  constructor
  · intro i
    rw [restorePass_get_out out xr bcs hne _ hout4 i, hset_out, hset_xr, hwdef, hzfun]
  · rw [restorePass_get_ne out xr bcs hne, hset_xr]

/-- Characterisation of `Action.assemble` in the presence of boundary
conditions, for a coefficient reference in bounds and a tensor (when
supplied) in bounds and distinct from the coefficient: every constrained
degree of freedom of the result holds `x`'s original value, every
unconstrained one holds the action of `a` on the boundary-zeroed copy of
`x`; `x` itself is left unchanged; and the returned reference is the tensor
when supplied, else a freshly allocated one. -/
theorem assemble_with_bcs (a : BilinearForm n) (xr : FuncRef)
    (bcs : List (DirichletBC n)) (s : Store n) (tensor : Option FuncRef)
    (hx : xr < s.funcs.length)
    (ht : ∀ t, tensor = Option.some t → t < s.funcs.length ∧ xr ≠ t) :
    (∀ i, (Action.assemble ⟨a, xr, Option.some bcs⟩ s tensor).1.get
          (Action.assemble ⟨a, xr, Option.some bcs⟩ s tensor).2 i =
        if inNodes bcs i then s.get xr i
        else a.apply (fun j => if inNodes bcs j then 0 else s.get xr j) i)
    ∧ (Action.assemble ⟨a, xr, Option.some bcs⟩ s tensor).1.get xr = s.get xr
    ∧ (Action.assemble ⟨a, xr, Option.some bcs⟩ s tensor).2 =
        (match tensor with
         | Option.none => s.funcs.length
         | Option.some t => t) := by
  cases tensor with
  | none =>
    have hout : s.funcs.length < (s.alloc (s.get xr)).1.funcs.length := by
      rw [Store.length_alloc]; exact Nat.lt_succ_self _
    have hxlt : xr < (s.alloc (s.get xr)).1.funcs.length := by
      rw [Store.length_alloc]; exact Nat.lt_succ_of_lt hx
    have hne : xr ≠ s.funcs.length := Nat.ne_of_lt hx
    have h1out : (s.alloc (s.get xr)).1.get s.funcs.length = s.get xr :=
      Store.get_alloc_new s (s.get xr)
    have h1x : (s.alloc (s.get xr)).1.get xr = s.get xr :=
      Store.get_alloc_lt s (s.get xr) hx
    have spec := assembleBcsPipe_spec a xr s.funcs.length bcs
      (s.alloc (s.get xr)).1 hout hxlt hne
    rw [h1out, h1x] at spec
    simp only [Action.assemble, Store.alloc_ref]
    exact ⟨spec.1, spec.2, trivial⟩
  | some t =>
    obtain ⟨htlt, htne⟩ := ht t rfl
    have hout : t < (s.set t (s.get xr)).funcs.length := by
      rw [Store.length_set]; exact htlt
    have hxlt : xr < (s.set t (s.get xr)).funcs.length := by
      rw [Store.length_set]; exact hx
    have h1out : (s.set t (s.get xr)).get t = s.get xr :=
      Store.get_set_self s t (s.get xr) htlt
    have h1x : (s.set t (s.get xr)).get xr = s.get xr :=
      Store.get_set_ne s (s.get xr) htne
    have spec := assembleBcsPipe_spec a xr t bcs (s.set t (s.get xr))
      hout hxlt htne
    rw [h1out, h1x] at spec
    simp only [Action.assemble]
    exact ⟨spec.1, spec.2, trivial⟩

/-- Is the dynamic value a finite element? -/
def UflVal.isElem : UflVal → Bool
  | UflVal.elem _ => true
  | _ => false

/-- Is the dynamic value an integer? -/
def UflVal.isInt : UflVal → Bool
  | UflVal.int _ => true
  | _ => false

/-- Did the call raise (model of an uncaught Python exception)? -/
def isErr {β : Type} : Except String β → Bool
  | Except.error _ => true
  | Except.ok _ => false

/-! ### Concrete fixtures for witnesses and counterexamples -/

/-- A scalar degree-1 element. -/
def feP1 : FiniteElement := ⟨0, 1, []⟩

/-- A scalar degree-2 element (same value shape as `feP1`). -/
def feP2 : FiniteElement := ⟨0, 2, []⟩

/-- A vector-valued element (different value shape). -/
def feVec : FiniteElement := ⟨0, 1, [2]⟩

/-- A function space on `feP1`. -/
def fsA : FunctionSpace := ⟨0, feP1⟩

/-- A second, distinct function space sharing `feP1`. -/
def fsB : FunctionSpace := ⟨1, feP1⟩

/-! ### Claim theorems: the Argument layer -/

/-- C10: for every function space `V`, `TestFunction(V)` is an Argument with
count `-2` and `TrialFunction(V)` one with count `-1`, each built from `V`'s
element and bound to `V` itself. -/
theorem testFunction_trialFunction_spec (V : FunctionSpace) :
    (TestFunction V).count = -2 ∧ (TrialFunction V).count = -1 ∧
    (TestFunction V).element = V.ufl_element ∧
    (TestFunction V).function_space = V ∧
    (TrialFunction V).element = V.ufl_element ∧
    (TrialFunction V).function_space = V :=
  ⟨rfl, rfl, rfl, rfl, rfl, rfl⟩

/-- C3 counterexample: two Arguments with the same element and count but
distinct function spaces compare equal, so equality is not equivalent to
agreement of all three of element, function space and count. -/
theorem argument_eq_ignores_function_space_cex :
    ¬ (Argument.ufl_eq ⟨feP1, fsA, -2⟩ ⟨feP1, fsB, -2⟩ = true ↔
       ((⟨feP1, fsA, -2⟩ : Argument).element = (⟨feP1, fsB, -2⟩ : Argument).element ∧
        (⟨feP1, fsA, -2⟩ : Argument).function_space =
          (⟨feP1, fsB, -2⟩ : Argument).function_space ∧
        (⟨feP1, fsA, -2⟩ : Argument).count = (⟨feP1, fsB, -2⟩ : Argument).count)) := by
  decide

/-- C3 (amended): two Arguments compare equal if and only if their elements
compare equal and their counts compare equal; the function-space binding is
not part of the inherited equality. -/
theorem argument_eq_iff (a b : Argument) :
    Argument.ufl_eq a b = true ↔ (a.element = b.element ∧ a.count = b.count) := by
  simp [Argument.ufl_eq]

/-- C2 counterexample: reconstructing with only a new (different) function
space returns the very same object — no fresh Argument carrying the new
space is produced. -/
theorem reconstruct_ignores_new_function_space_cex :
    Argument.reconstruct ⟨feP1, fsA, -2⟩ UflVal.none (Option.some fsB) UflVal.none =
      Except.ok ReconOut.same ∧
    fsB ≠ (⟨feP1, fsA, -2⟩ : Argument).function_space :=
  ⟨rfl, by decide⟩

/-- C2 (amended): omitted fields default to the current values; whenever the
supplied element and count do not differ from the current ones the very same
object is returned, even if a different function space was supplied;
otherwise, on success, a freshly constructed Argument carries the merged
fields, including a newly supplied function space. -/
theorem reconstruct_merge_spec (self : Argument) (fs : Option FunctionSpace) :
    (∀ el ct, (el = UflVal.none ∨ el = UflVal.elem self.element) →
        (ct = UflVal.none ∨ ct = UflVal.int self.count) →
        Argument.reconstruct self el fs ct = Except.ok ReconOut.same)
    ∧ (∀ e c, e.value_shape = self.element.value_shape →
        (e ≠ self.element ∨ c ≠ self.count) →
        Argument.reconstruct self (UflVal.elem e) fs (UflVal.int c) =
          Except.ok (ReconOut.fresh ⟨e, fs.getD self.function_space, c⟩))
    ∧ (∀ e, e.value_shape = self.element.value_shape → e ≠ self.element →
        Argument.reconstruct self (UflVal.elem e) fs UflVal.none =
          Except.ok (ReconOut.fresh ⟨e, fs.getD self.function_space, self.count⟩))
    ∧ (∀ c, c ≠ self.count →
        Argument.reconstruct self UflVal.none fs (UflVal.int c) =
          Except.ok (ReconOut.fresh ⟨self.element, fs.getD self.function_space, c⟩)) := by
  have hfs : (match fs with
      | Option.none => self.function_space
      | Option.some w =>
        if w = self.function_space then self.function_space else w) =
      fs.getD self.function_space := by
    cases fs with
    | none => rfl
    | some w =>
      by_cases hw : w = self.function_space <;> simp [hw, Option.getD]
  refine ⟨?_, ?_, ?_, ?_⟩
  · rintro el ct (rfl | rfl) (rfl | rfl) <;> simp [Argument.reconstruct]
  · intro e c hsh hdiff
    by_cases he : e = self.element
    · subst he
      have hc : c ≠ self.count := by
        rcases hdiff with h | h
        · exact absurd rfl h
        · exact h
      simp [Argument.reconstruct, hc, hfs]
    · have helv : UflVal.elem e ≠ UflVal.elem self.element := by
        intro h; exact he (UflVal.elem.inj h)
      by_cases hc : c = self.count <;>
        simp [Argument.reconstruct, he, helv, hc, hsh, hfs]
  · intro e hsh he
    have helv : UflVal.elem e ≠ UflVal.elem self.element := by
      intro h; exact he (UflVal.elem.inj h)
    simp [Argument.reconstruct, he, helv, hsh, hfs]
  · intro c hc
    simp [Argument.reconstruct, hc, hfs]

/-- C2 witness: at concrete inputs, a no-change call returns `same` and a
changed-count call with a new function space returns the fresh merged
Argument. -/
theorem reconstruct_merge_spec_witness :
    Argument.reconstruct ⟨feP1, fsA, -2⟩ UflVal.none Option.none UflVal.none =
      Except.ok ReconOut.same ∧
    Argument.reconstruct ⟨feP1, fsA, -2⟩ UflVal.none (Option.some fsB) (UflVal.int 3) =
      Except.ok (ReconOut.fresh ⟨feP1, fsB, 3⟩) := by
  constructor
  · exact (reconstruct_merge_spec ⟨feP1, fsA, -2⟩ Option.none).1
      UflVal.none UflVal.none (Or.inl rfl) (Or.inl rfl)
  · have h := (reconstruct_merge_spec ⟨feP1, fsA, -2⟩ (Option.some fsB)).2.2.2
      3 (by decide)
    simpa using h

/-- C7: reconstruction with an element of a different value shape always
fails with a validation error, as do a non-element `element` and a
non-integer `count`; no new Argument is produced on such calls. -/
theorem reconstruct_validation_errors (self : Argument) :
    (∀ e fs ct, e.value_shape ≠ self.element.value_shape →
        isErr (Argument.reconstruct self (UflVal.elem e) fs ct) = true)
    ∧ (∀ v fs ct, v.isElem = false → v ≠ UflVal.none →
        isErr (Argument.reconstruct self v fs ct) = true)
    ∧ (∀ el fs c, c.isInt = false → c ≠ UflVal.none →
        isErr (Argument.reconstruct self el fs c) = true) := by
  refine ⟨?_, ?_, ?_⟩
  · intro e fs ct hsh
    have he : e ≠ self.element := by
      intro h; exact hsh (h ▸ rfl)
    have helv : UflVal.elem e ≠ UflVal.elem self.element := by
      intro h; exact he (UflVal.elem.inj h)
    cases ct with
    | none => simp [Argument.reconstruct, helv, hsh, isErr]
    | int k =>
      by_cases hk : k = self.count <;>
        simp [Argument.reconstruct, helv, hsh, hk, isErr]
    | elem e2 => simp [Argument.reconstruct, helv, hsh, isErr]
    | other t => simp [Argument.reconstruct, helv, hsh, isErr]
  · intro v fs ct hv hvn
    cases v with
    | none => exact absurd rfl hvn
    | elem e => simp [UflVal.isElem] at hv
    | int k =>
      cases ct with
      | none => simp [Argument.reconstruct, isErr]
      | int c =>
        by_cases hc : c = self.count <;> simp [Argument.reconstruct, hc, isErr]
      | elem e2 => simp [Argument.reconstruct, isErr]
      | other t => simp [Argument.reconstruct, isErr]
    | other t =>
      cases ct with
      | none => simp [Argument.reconstruct, isErr]
      | int c =>
        by_cases hc : c = self.count <;> simp [Argument.reconstruct, hc, isErr]
      | elem e2 => simp [Argument.reconstruct, isErr]
      | other t2 => simp [Argument.reconstruct, isErr]
  · intro el fs c hc hcn
    have hci : ∀ k : Int, c ≠ UflVal.int k := by
      intro k h; subst h; simp [UflVal.isInt] at hc
    cases c with
    | none => exact absurd rfl hcn
    | int k => exact absurd rfl (hci k)
    | elem e2 =>
      cases el with
      | none => simp [Argument.reconstruct, isErr]
      | elem e =>
        by_cases he : e = self.element <;>
          by_cases hsh : e.value_shape = self.element.value_shape <;>
            simp [Argument.reconstruct, he, hsh, isErr]
      | int k => simp [Argument.reconstruct, isErr]
      | other t => simp [Argument.reconstruct, isErr]
    | other t =>
      cases el with
      | none => simp [Argument.reconstruct, isErr]
      | elem e =>
        by_cases he : e = self.element <;>
          by_cases hsh : e.value_shape = self.element.value_shape <;>
            simp [Argument.reconstruct, he, hsh, isErr]
      | int k => simp [Argument.reconstruct, isErr]
      | other t2 => simp [Argument.reconstruct, isErr]

/-- C7 witness: the three failure modes at concrete inputs. -/
theorem reconstruct_validation_errors_witness :
    isErr (Argument.reconstruct ⟨feP1, fsA, -2⟩ (UflVal.elem feVec)
      Option.none UflVal.none) = true ∧
    isErr (Argument.reconstruct ⟨feP1, fsA, -2⟩ (UflVal.other 9)
      Option.none UflVal.none) = true ∧
    isErr (Argument.reconstruct ⟨feP1, fsA, -2⟩ UflVal.none
      Option.none (UflVal.other 9)) = true :=
  ⟨(reconstruct_validation_errors ⟨feP1, fsA, -2⟩).1 feVec Option.none
      UflVal.none (by decide),
   (reconstruct_validation_errors ⟨feP1, fsA, -2⟩).2.1 (UflVal.other 9)
      Option.none UflVal.none (by decide) (by decide),
   (reconstruct_validation_errors ⟨feP1, fsA, -2⟩).2.2 UflVal.none
      Option.none (UflVal.other 9) (by decide) (by decide)⟩

/-! ### Claim theorems: adjoint and derivative -/

/-- C5: with no `reordered_arguments`, `adjoint` extracts the form's two
arguments and hands the engine two new Arguments with element and function
space from the originals in swapped order (first from the trial argument,
second from the test argument) and default, freshly numbered counts (the
counter's next two values, which are distinct); a caller-supplied
`reordered_arguments` is forwarded unchanged with no validation. -/
theorem adjoint_spec (form : UflBilinearForm) (counter : Nat) :
    (adjoint form Option.none counter =
      (⟨form, (⟨form.trial.element, form.trial.function_space, (counter : Int)⟩,
               ⟨form.test.element, form.test.function_space,
                ((counter + 1 : Nat) : Int)⟩)⟩,
       counter + 2))
    ∧ (∀ ra, adjoint form (Option.some ra) counter = (⟨form, ra⟩, counter))
    ∧ (adjoint form Option.none counter).1.reordered.1.count = (counter : Int)
    ∧ (adjoint form Option.none counter).1.reordered.2.count =
        ((counter : Int) + 1) := by
  refine ⟨rfl, fun ra => rfl, rfl, ?_⟩
  simp [adjoint, extract_arguments, Argument.mk_fresh]

/-- C8: `derivative` raises a RuntimeError-class error exactly when `du` is
missing and `u` is not a `core_types.Function`; with `du` missing and `u` a
function, `du` is auto-constructed on `u`'s function space (element taken
from the space, count defaulted to the next fresh count) and handed to the
engine; a supplied `du` is used unchanged. -/
theorem derivative_spec {α : Type} (form : α) (u : Coeff) (du : Option Argument)
    (counter : Nat) :
    (isErr (derivative form u du counter) = true ↔
      (du = Option.none ∧ ∀ V, u ≠ Coeff.function V))
    ∧ (∀ V, du = Option.none → u = Coeff.function V →
        derivative form u du counter =
          Except.ok (⟨form, u, ⟨V.ufl_element, V, (counter : Int)⟩⟩, counter + 1))
    ∧ (∀ d, du = Option.some d →
        derivative form u du counter = Except.ok (⟨form, u, d⟩, counter)) := by
  refine ⟨?_, ?_, ?_⟩
  · cases du with
    | some d => simp [derivative, isErr]
    | none =>
      cases u with
      | function W =>
        simp only [derivative, Argument.mk_fresh, isErr]
        constructor
        · intro h; exact Bool.noConfusion h
        · rintro ⟨-, h⟩; exact absurd rfl (h W)
      | other t => simp [derivative, isErr]
  · rintro V rfl rfl
    simp [derivative, Argument.mk_fresh]
  · rintro d rfl
    rfl

/-- C8 witness: the error case, the auto-construction case and the
pass-through case at concrete inputs. -/
theorem derivative_spec_witness :
    isErr (derivative (0 : Nat) (Coeff.other 4) Option.none 7) = true ∧
    derivative (0 : Nat) (Coeff.function fsA) Option.none 7 =
      Except.ok (⟨0, Coeff.function fsA, ⟨fsA.ufl_element, fsA, (7 : Int)⟩⟩, 8) ∧
    derivative (0 : Nat) (Coeff.other 4) (Option.some ⟨feP1, fsB, 3⟩) 7 =
      Except.ok (⟨0, Coeff.other 4, ⟨feP1, fsB, 3⟩⟩, 7) :=
  ⟨(derivative_spec (0 : Nat) (Coeff.other 4) Option.none 7).1.mpr
      ⟨rfl, fun _ h => Coeff.noConfusion h⟩,
   (derivative_spec (0 : Nat) (Coeff.function fsA) Option.none 7).2.1
      fsA rfl rfl,
   (derivative_spec (0 : Nat) (Coeff.other 4) (Option.some ⟨feP1, fsB, 3⟩) 7).2.2
      ⟨feP1, fsB, 3⟩ rfl⟩

/-! ### Claim theorems: the Action layer -/

/-- A one-dof coefficient with value 7 in a one-function store. -/
def store7 : Store 1 := ⟨[fun _ => 7]⟩

/-- A boundary condition constraining the single dof. -/
def bcAll : DirichletBC 1 := ⟨{0}⟩

/-- The identity operator as an assembled bilinear-form action. -/
def idOp : BilinearForm 1 := ⟨fun v => v⟩

/-- C1 counterexample: when the supplied tensor is the coefficient `x`
itself, the restore pass reads the already-overwritten values, so the
constrained dof of the result does not equal `x`'s original value. -/
theorem assemble_alias_cex :
    (Action.assemble ⟨idOp, 0, Option.some [bcAll]⟩ store7 (Option.some 0)).1.get
      (Action.assemble ⟨idOp, 0, Option.some [bcAll]⟩ store7 (Option.some 0)).2 0 ≠
    store7.get 0 0 := by
  decide

/-- C1 (amended): for a coefficient reference in bounds and a tensor that,
when supplied, is a distinct in-bounds function, `Action.assemble` with a
non-empty ordered collection of boundary conditions returns a function whose
every constrained dof equals `x`'s value there and whose every unconstrained
dof equals the action of `a` applied to the boundary-zeroed copy of `x`;
the result is the supplied tensor, else a freshly allocated function. -/
theorem action_assemble_bcs_spec (a : BilinearForm n) (xr : FuncRef)
    (bcs : List (DirichletBC n)) (s : Store n) (tensor : Option FuncRef)
    (_hbcs : bcs ≠ []) (hx : xr < s.funcs.length)
    (ht : ∀ t, tensor = Option.some t → t < s.funcs.length ∧ xr ≠ t) :
    (∀ i, (Action.assemble ⟨a, xr, Option.some bcs⟩ s tensor).1.get
          (Action.assemble ⟨a, xr, Option.some bcs⟩ s tensor).2 i =
        if inNodes bcs i then s.get xr i
        else a.apply (fun j => if inNodes bcs j then 0 else s.get xr j) i)
    ∧ (Action.assemble ⟨a, xr, Option.some bcs⟩ s tensor).2 =
        (match tensor with
         | Option.none => s.funcs.length
         | Option.some t => t) := by
  have h := assemble_with_bcs a xr bcs s tensor hx ht
  exact ⟨h.1, h.2.2⟩

/-- C1 witness: a two-dof example with a supplied distinct tensor; the
constrained dof keeps `x`'s value 5 and the unconstrained dof carries the
action of the summing operator on the zeroed copy, 6. -/
theorem action_assemble_bcs_spec_witness :
    ((Action.assemble ⟨⟨fun v => fun _ => v 0 + v 1⟩, 0,
        Option.some [⟨{0}⟩]⟩
      (⟨[fun i => if i = 0 then 5 else 6, fun _ => 9]⟩ : Store 2)
      (Option.some 1)).1.get
      (Action.assemble ⟨⟨fun v => fun _ => v 0 + v 1⟩, 0,
        Option.some [⟨{0}⟩]⟩
      (⟨[fun i => if i = 0 then 5 else 6, fun _ => 9]⟩ : Store 2)
      (Option.some 1)).2 0 = 5)
    ∧ ((Action.assemble ⟨⟨fun v => fun _ => v 0 + v 1⟩, 0,
        Option.some [⟨{0}⟩]⟩
      (⟨[fun i => if i = 0 then 5 else 6, fun _ => 9]⟩ : Store 2)
      (Option.some 1)).1.get
      (Action.assemble ⟨⟨fun v => fun _ => v 0 + v 1⟩, 0,
        Option.some [⟨{0}⟩]⟩
      (⟨[fun i => if i = 0 then 5 else 6, fun _ => 9]⟩ : Store 2)
      (Option.some 1)).2 1 = 6) := by
  have h := action_assemble_bcs_spec
    (⟨fun v => fun _ => v 0 + v 1⟩ : BilinearForm 2) 0 [⟨{0}⟩]
    (⟨[fun i => if i = 0 then 5 else 6, fun _ => 9]⟩ : Store 2)
    (Option.some 1) (List.cons_ne_nil _ _) (by decide)
    (fun t heq => by cases heq; exact ⟨by decide, by decide⟩)
  constructor
  · rw [h.1 0]; decide
  · rw [h.1 1]; decide

/-- C4: for two boundary conditions and a dof constrained by both, the
assembled action (no tensor) holds `x`'s value at that dof, in either
supply order, and the two orders agree there. -/
theorem action_assemble_overlap_spec (a : BilinearForm n) (xr : FuncRef)
    (bc1 bc2 : DirichletBC n) (s : Store n) (i : Fin n)
    (hx : xr < s.funcs.length) (h1 : i ∈ bc1.node_set) (h2 : i ∈ bc2.node_set) :
    (Action.assemble ⟨a, xr, Option.some [bc1, bc2]⟩ s Option.none).1.get
      (Action.assemble ⟨a, xr, Option.some [bc1, bc2]⟩ s Option.none).2 i =
      s.get xr i
    ∧ (Action.assemble ⟨a, xr, Option.some [bc2, bc1]⟩ s Option.none).1.get
      (Action.assemble ⟨a, xr, Option.some [bc2, bc1]⟩ s Option.none).2 i =
      s.get xr i
    ∧ (Action.assemble ⟨a, xr, Option.some [bc1, bc2]⟩ s Option.none).1.get
      (Action.assemble ⟨a, xr, Option.some [bc1, bc2]⟩ s Option.none).2 i =
      (Action.assemble ⟨a, xr, Option.some [bc2, bc1]⟩ s Option.none).1.get
      (Action.assemble ⟨a, xr, Option.some [bc2, bc1]⟩ s Option.none).2 i := by
  have hin12 : inNodes [bc1, bc2] i = true := by
    simp [inNodes]
    exact Or.inl h1
  have hin21 : inNodes [bc2, bc1] i = true := by
    simp [inNodes]
    exact Or.inl h2
  have e12 := (assemble_with_bcs a xr [bc1, bc2] s Option.none hx
    (fun t h => Option.noConfusion h)).1 i
  have e21 := (assemble_with_bcs a xr [bc2, bc1] s Option.none hx
    (fun t h => Option.noConfusion h)).1 i
  rw [hin12] at e12
  rw [hin21] at e21
  simp only [if_true] at e12 e21
  exact ⟨e12, e21, by rw [e12, e21]⟩

/-- C4 witness: a two-dof example with overlapping node sets `{0, 1}` and
`{1}`; the overlap dof 1 holds `x`'s value 6 in both orders. -/
theorem action_assemble_overlap_spec_witness :
    (Action.assemble ⟨⟨fun v => fun _ => v 0 + v 1⟩, 0,
        Option.some [⟨{0, 1}⟩, ⟨{1}⟩]⟩
      (⟨[fun i => if i = 0 then 5 else 6]⟩ : Store 2) Option.none).1.get
      (Action.assemble ⟨⟨fun v => fun _ => v 0 + v 1⟩, 0,
        Option.some [⟨{0, 1}⟩, ⟨{1}⟩]⟩
      (⟨[fun i => if i = 0 then 5 else 6]⟩ : Store 2) Option.none).2 1 =
      (⟨[fun i => if i = 0 then 5 else 6]⟩ : Store 2).get 0 1
    ∧ (Action.assemble ⟨⟨fun v => fun _ => v 0 + v 1⟩, 0,
        Option.some [⟨{1}⟩, ⟨{0, 1}⟩]⟩
      (⟨[fun i => if i = 0 then 5 else 6]⟩ : Store 2) Option.none).1.get
      (Action.assemble ⟨⟨fun v => fun _ => v 0 + v 1⟩, 0,
        Option.some [⟨{1}⟩, ⟨{0, 1}⟩]⟩
      (⟨[fun i => if i = 0 then 5 else 6]⟩ : Store 2) Option.none).2 1 =
      (⟨[fun i => if i = 0 then 5 else 6]⟩ : Store 2).get 0 1 := by
  have h := action_assemble_overlap_spec
    (⟨fun v => fun _ => v 0 + v 1⟩ : BilinearForm 2) 0 ⟨{0, 1}⟩ ⟨{1}⟩
    (⟨[fun i => if i = 0 then 5 else 6]⟩ : Store 2) 1
    (by decide) (by decide) (by decide)
  exact ⟨h.1, h.2.1⟩

/-- C6: with `bcs` absent, `action` returns the engine's native action form
(not an `Action` wrapper), and `Action.assemble` without stored boundary
conditions delegates to the assembly collaborator on the native action,
forwarding the tensor — which coincides with the spec's native-action
semantics; with `bcs` supplied, `action` returns the `Action` wrapper. -/
theorem action_no_bcs_native (a : BilinearForm n) (x : FuncRef) :
    (action a x Option.none = ActionResult.uflForm (ufl_action a x))
    ∧ (∀ s tensor, Action.assemble ⟨a, x, Option.none⟩ s tensor =
        solving_assemble s (ufl_action a x) tensor)
    ∧ (∀ s tensor, Action.assemble ⟨a, x, Option.none⟩ s tensor =
        specNativeActionAssemble s a x tensor)
    ∧ (∀ bcs, action a x (Option.some bcs) =
        ActionResult.wrapped ⟨a, x, Option.some bcs⟩) := by
  refine ⟨rfl, fun s tensor => rfl, fun s tensor => ?_, fun bcs => rfl⟩
  cases tensor <;> rfl

/-- C9: with boundary conditions present, `assemble` returns the supplied
tensor's reference when one is given (the result is delivered by mutating it
in place); with no tensor, the result is a newly allocated reference — not
any pre-existing one, in particular not `x` — and `x`'s values are left
unmodified. -/
theorem action_assemble_effects (a : BilinearForm n) (xr : FuncRef)
    (bcs : List (DirichletBC n)) (s : Store n) :
    (∀ t, (Action.assemble ⟨a, xr, Option.some bcs⟩ s (Option.some t)).2 = t)
    ∧ (Action.assemble ⟨a, xr, Option.some bcs⟩ s Option.none).2 = s.funcs.length
    ∧ (xr < s.funcs.length →
        xr ≠ (Action.assemble ⟨a, xr, Option.some bcs⟩ s Option.none).2
        ∧ (Action.assemble ⟨a, xr, Option.some bcs⟩ s Option.none).1.get xr =
            s.get xr) := by
  refine ⟨fun t => rfl, rfl, fun hx => ?_⟩
  exact ⟨Nat.ne_of_lt hx,
    (assemble_with_bcs a xr bcs s Option.none hx
      (fun t h => Option.noConfusion h)).2.1⟩

/-- C9 witness: at the one-dof fixture, a supplied tensor reference is
returned, and with no tensor the fresh reference 1 is returned while `x`
keeps its value. -/
theorem action_assemble_effects_witness :
    (Action.assemble ⟨idOp, 0, Option.some [bcAll]⟩ store7 (Option.some 0)).2 = 0
    ∧ (Action.assemble ⟨idOp, 0, Option.some [bcAll]⟩ store7 Option.none).2 = 1
    ∧ (0 : FuncRef) ≠
        (Action.assemble ⟨idOp, 0, Option.some [bcAll]⟩ store7 Option.none).2
    ∧ (Action.assemble ⟨idOp, 0, Option.some [bcAll]⟩ store7 Option.none).1.get 0 =
        store7.get 0 := by
  have h := action_assemble_effects idOp 0 [bcAll] store7
  have h3 := h.2.2 (by decide)
  exact ⟨h.1 0, h.2.1, h3.1, h3.2⟩

end Firedrake
